import Mathlib

set_option maxRecDepth 8000

/-!
Shallow embedding of `src/segundo_parcial_eda/GestorTareas.py`.

The Python class `TaskManager` keeps a binary heap `self.tasks` of tuples
`(priority, counter, task)`, a set `self.completed_tasks` of completed task
names, an insertion-ordered dict `self.task_dependencies` mapping a task name
to the list of names of tasks that declared it as a dependency, and a counter
used to assign creation sequence numbers.  The heap is manipulated through
CPython's `heapq` (`heappush`, `heapify`), which is modelled here verbatim.
Printing and file I/O do not affect the in-memory state and are omitted; the
data written by `save_tasks` and read back by `load_tasks` is modelled by the
`SavedData` structure.
-/

namespace GestorTareas

/-- Task record: the dict built in `add_task` (source lines 52-57): name,
priority, list of dependency names, optional deadline string. -/
structure Task where
  name : String
  priority : Int
  dependencies : List String
  deadline : Option String
  deriving DecidableEq, Repr, Inhabited

/-- Heap entry: the tuple `(priority, counter, task)` pushed on `self.tasks`
(source line 60). -/
structure Entry where
  priority : Int
  seq : Nat
  task : Task
  deriving DecidableEq, Repr, Inhabited

/-- The mutable state of `TaskManager` (source lines 7-13), minus the
filename, which only names the snapshot file. -/
structure State where
  tasks : List Entry
  completed_tasks : List String
  task_dependencies : List (String × List String)
  counter : Nat
  deriving DecidableEq, Repr, Inhabited

/-- Python `str.strip()`: drop leading and trailing whitespace, here on the
character list of the string. -/
def pyStrip (l : List Char) : List Char :=
  ((l.dropWhile Char.isWhitespace).reverse.dropWhile Char.isWhitespace).reverse

/-- Python `int(s)` on the CLI-supplied priority string (source line 37; the
only caller, `main`, always passes the raw `input()` string): strip
whitespace, then an optional sign followed by one or more digits; any other
string raises `ValueError`. -/
def pyInt (s : String) : Option Int :=
  let t := pyStrip s.data
  let signDigits : Bool × List Char :=
    match t with
    | '-' :: rest => (true, rest)
    | '+' :: rest => (false, rest)
    | _ => (false, t)
  let digits := signDigits.2
  if digits = [] then none
  else if digits.all Char.isDigit then
    let m : Nat := digits.foldl (fun n c => n * 10 + (c.toNat - 48)) 0
    some (if signDigits.1 then -(m : Int) else (m : Int))
  else none

/-- Python `set.add` on `completed_tasks` (source line 118): no-op when the
element is already a member. -/
def set_add (c : List String) (x : String) : List String :=
  if x ∈ c then c else c ++ [x]

/-- Source lines 64-67: `if dep not in self.task_dependencies:
self.task_dependencies[dep] = []` followed by
`self.task_dependencies[dep].append(name)`, on an insertion-ordered dict
represented as an association list with distinct keys. -/
def add_dependent (name : String) : List (String × List String) → String → List (String × List String)
  | [], dep => [(dep, [name])]
  | kv :: rest, dep =>
    if kv.1 = dep then (kv.1, kv.2 ++ [name]) :: rest
    else kv :: add_dependent name rest dep

/-- Dict lookup defaulting to `[]`: models `self.task_dependencies[t]` guarded
by `if t in self.task_dependencies` (source lines 100-101; an absent key
behaves like an empty dependent list). -/
def dict_get (td : List (String × List String)) (d : String) : List String :=
  match td with
  | [] => []
  | kv :: rest => if kv.1 = d then kv.2 else dict_get rest d

/-- Python `<` on the tuples `(priority, counter, task)`: lexicographic; the
task dict is never compared because counters in one heap are distinct. -/
def entryLt (a b : Entry) : Bool :=
  decide (a.priority < b.priority) ||
    (decide (a.priority = b.priority) && decide (a.seq < b.seq))

/-- CPython `heapq._siftdown`: bubble `newitem` from `pos` up towards
`startpos`, moving larger parents down.  The loop strictly decreases `pos`,
so `fuel = pos` iterations always suffice; on fuel exhaustion the function
performs the same final store as the loop exit. -/
def siftdownAux (l : List Entry) (startpos pos : Nat) (newitem : Entry) : Nat → List Entry
  | 0 => l.set pos newitem
  | fuel + 1 =>
    if startpos < pos then
      if entryLt newitem (l.getD ((pos - 1) / 2) default) then
        siftdownAux (l.set pos (l.getD ((pos - 1) / 2) default)) startpos ((pos - 1) / 2) newitem fuel
      else l.set pos newitem
    else l.set pos newitem

/-- CPython `heapq._siftdown` entry point. -/
def siftdown (l : List Entry) (startpos pos : Nat) (newitem : Entry) : List Entry :=
  siftdownAux l startpos pos newitem pos

/-- CPython `heapq.heappush`: append the item, then sift it towards the root
(source line 60 `heapq.heappush(self.tasks, (priority, self.counter, task))`). -/
def heappush (l : List Entry) (item : Entry) : List Entry :=
  siftdown (l ++ [item]) 0 l.length item

/-- The child selection of `_siftup`: move to the right sibling when it
exists and is not larger (`rightpos < endpos and not heap[childpos] <
heap[rightpos]`). -/
def pickChild (l : List Entry) (childpos : Nat) : Nat :=
  if childpos + 1 < l.length && !(entryLt (l.getD childpos default) (l.getD (childpos + 1) default))
  then childpos + 1 else childpos

/-- CPython `heapq._siftup` main loop: repeatedly move the smaller child into
the hole at `pos`, then place `newitem` and sift it down.  `pos` strictly
increases, so `fuel = l.length` iterations always suffice; on fuel exhaustion
the function performs the same final stores as the loop exit. -/
def siftupLoop (l : List Entry) (pos : Nat) (newitem : Entry) (startpos : Nat) : Nat → List Entry
  | 0 => siftdown (l.set pos newitem) startpos pos newitem
  | fuel + 1 =>
    if 2 * pos + 1 < l.length then
      siftupLoop (l.set pos (l.getD (pickChild l (2 * pos + 1)) default))
        (pickChild l (2 * pos + 1)) newitem startpos fuel
    else siftdown (l.set pos newitem) startpos pos newitem

/-- CPython `heapq._siftup` entry point. -/
def siftup (l : List Entry) (pos : Nat) : List Entry :=
  siftupLoop l pos (l.getD pos default) pos l.length

/-- CPython `heapq.heapify` loop: `for i in reversed(range(n // 2)):
_siftup(x, i)`. -/
def heapifyLoop : List Entry → Nat → List Entry
  | l, 0 => siftup l 0
  | l, i + 1 => heapifyLoop (siftup l (i + 1)) i

/-- CPython `heapq.heapify` (called by `complete_task`, source line 115). -/
def heapify (l : List Entry) : List Entry :=
  if l.length / 2 = 0 then l else heapifyLoop l (l.length / 2 - 1)

/-- The comprehension `[task['name'] for _, _, task in self.tasks]` of source
line 46: the names of the currently pending tasks. -/
def pending_names (s : State) : List String :=
  s.tasks.map (fun e => e.task.name)

/-- Source lines 15-26 `is_task_executable`, as a pure function of the task
and the completed set (`self.completed_tasks` is the only state it reads, and
it writes nothing). -/
def is_task_executable (task : Task) (completed : List String) : Bool × List String :=
  if task.dependencies = [] then (true, [])
  else
    let pending := task.dependencies.filter (fun dep => !(completed.contains dep))
    (pending.length == 0, pending)

/-- Outcome of `add_task`: the three `ValueError`s raised on source lines
33-50, or the created task. -/
inductive AddResult where
  | ok (task : Task)
  | invalidName
  | invalidPriority
  | unknownDependency (names : List String)
  deriving DecidableEq, Repr

/-- Source lines 28-82 `add_task`, restricted to its effect on the in-memory
state (prints and the `save_tasks` call do not touch it).  `priority` arrives
as the CLI string of source line 216 and is parsed by `int` on line 37;
`dependencies = dependencies or []` is handled by the caller passing `[]`. -/
def add_task (s : State) (name priority : String) (dependencies : List String)
    (deadline : Option String) : AddResult × State :=
  if pyStrip name.data = [] then (.invalidName, s)
  else
    match pyInt priority with
    | none => (.invalidPriority, s)
    | some prio =>
      let invalid := dependencies.filter
        (fun dep => !((s.tasks.map (fun e => e.task.name)).contains dep) &&
          !(s.completed_tasks.contains dep))
      if invalid ≠ [] then (.unknownDependency invalid, s)
      else
        let task : Task := ⟨name, prio, dependencies, deadline⟩
        (.ok task,
          { tasks := heappush s.tasks ⟨prio, s.counter + 1, task⟩,
            completed_tasks := s.completed_tasks,
            task_dependencies :=
              dependencies.foldl (fun td dep => add_dependent name td dep) s.task_dependencies,
            counter := s.counter + 1 })

/-- The scan of source lines 88-89: the first heap entry whose task name
matches, returned together with the entries before and after it. -/
def findEntry : List Entry → String → Option (List Entry × Entry × List Entry)
  | [], _ => none
  | e :: rest, tname =>
    if e.task.name = tname then some ([], e, rest)
    else
      match findEntry rest tname with
      | some (pre, f, post) => some (e :: pre, f, post)
      | none => none

/-- Outcome of `complete_task`: the three refusals printed on source lines
93, 107 and 129, or success. -/
inductive CompleteResult where
  | ok
  | notFound
  | unmetDependencies (names : List String)
  | blockedByDependents (names : List String)
  deriving DecidableEq, Repr

/-- Source lines 84-129 `complete_task`: find the first matching heap entry;
refuse while the task has pending dependencies; refuse while some recorded
dependent is not yet completed; otherwise delete the entry (`del` followed by
`heapq.heapify`) and add the name to `completed_tasks`.  The trailing
`check_task_executability` and `save_tasks` calls do not change the state. -/
def complete_task (s : State) (task_name : String) : CompleteResult × State :=
  match findEntry s.tasks task_name with
  | none => (.notFound, s)
  | some (pre, e, post) =>
    if (is_task_executable e.task s.completed_tasks).2 ≠ [] then
      (.unmetDependencies (is_task_executable e.task s.completed_tasks).2, s)
    else if (dict_get s.task_dependencies task_name).filter
        (fun dep => !(s.completed_tasks.contains dep)) ≠ [] then
      (.blockedByDependents ((dict_get s.task_dependencies task_name).filter
        (fun dep => !(s.completed_tasks.contains dep))), s)
    else
      (.ok,
        { tasks := heapify (pre ++ post),
          completed_tasks := set_add s.completed_tasks task_name,
          task_dependencies := s.task_dependencies,
          counter := s.counter })

/-- The dependents recorded for a name: `self.task_dependencies[d]`, or `[]`
when the key is absent. -/
def dependents_of (s : State) (d : String) : List String :=
  dict_get s.task_dependencies d

/-- Stable insertion into a list ordered by priority: the element goes before
the first entry whose priority is not smaller. -/
def insertByPriority (e : Entry) : List Entry → List Entry
  | [] => [e]
  | f :: rest => if e.priority ≤ f.priority then e :: f :: rest else f :: insertByPriority e rest

/-- Model of `sorted(self.tasks, key=lambda x: x[0])` (source line 240):
Python's sort is stable on the key, and a stable insertion sort on the
priority computes the same list. -/
def sortByPriority : List Entry → List Entry
  | [] => []
  | e :: rest => insertByPriority e (sortByPriority rest)

/-- The pending listing of menu option 2 (source lines 235-247): tasks in
the order produced by `sorted(self.tasks, key=lambda x: x[0])`. -/
def list_pending_ordered (s : State) : List Task :=
  (sortByPriority s.tasks).map (fun e => e.task)

/-- The JSON document written by `save_tasks` (source lines 189-193). -/
structure SavedData where
  tasks : List Task
  completed_tasks : List String
  task_dependencies : List (String × List String)
  deriving DecidableEq, Repr

/-- Source lines 184-197 `save_tasks`: tasks in heap order without their
counters, the completed set as a list, the dependency dict verbatim. -/
def save_tasks (s : State) : SavedData :=
  ⟨s.tasks.map (fun e => e.task), s.completed_tasks, s.task_dependencies⟩

/-- Source line 169 `enumerate`: rebuild heap entries
`(task['priority'], index, task)` with indices counting from `i`. -/
def load_entries : Nat → List Task → List Entry
  | _, [] => []
  | i, t :: rest => ⟨t.priority, i, t⟩ :: load_entries (i + 1) rest

/-- Source lines 161-172 `load_tasks`, success path: entries rebuilt by
`enumerate`, completed set and dependency dict as stored, and
`self.counter = len(self.tasks)`. -/
def load_tasks (d : SavedData) : State :=
  ⟨load_entries 0 d.tasks, d.completed_tasks, d.task_dependencies, d.tasks.length⟩

/-- Fresh manager state when no snapshot file exists (source lines 178-182). -/
def emptyState : State := ⟨[], [], [], 0⟩

/-- One pending task `A` with no dependencies and no dependents. -/
def stateA : State := (add_task emptyState "A" "1" [] none).2

/-- Task `A`, then task `B` declaring a dependency on `A`. -/
def stateAB : State := (add_task stateA "B" "1" ["A"] none).2

/-- The spec's ordering example: four tasks added with priorities 5, 1, 5, 3
in that insertion order. -/
def c3_state : State :=
  (add_task (add_task (add_task (add_task emptyState "task1" "5" [] none).2
    "task2" "1" [] none).2 "task3" "5" [] none).2 "task4" "3" [] none).2

/-- Task `D`, then task `T` listing `D` twice in its dependency list (the CLI
input `D,D` produces exactly this list, source line 223). -/
def c4_state : State :=
  (add_task (add_task emptyState "D" "1" [] none).2 "T" "1" ["D", "D"] none).2

/-- Tasks `A` and `B` added in a fresh lifetime; `B` receives sequence 2. -/
def c7_before : State := (add_task stateA "B" "1" [] none).2

/-- Complete `B`, snapshot, reload, then add `C`: the reloaded counter is the
number of loaded pending tasks, so `C` receives sequence 2 again. -/
def c7_after : State :=
  (add_task (load_tasks (save_tasks (complete_task c7_before "B").2)) "C" "1" [] none).2

/-! Auxiliary lemmas about `List.set`, used to show that the sift operations
of the heap model only permute the heap array. -/

theorem set_getD_self {α} (d : α) : ∀ (l : List α) (i : Nat), i < l.length → l.set i (l.getD i d) = l
  | [], i, h => absurd h (by simp)
  | _ :: _, 0, _ => rfl
  | x :: xs, i + 1, h => by
    show x :: xs.set i (xs.getD i d) = x :: xs
    rw [set_getD_self d xs i (by simpa using h)]

theorem cons_set_swap_perm {α} : ∀ (xs : List α) (m : Nat) (a b : α), m < xs.length →
    (a :: xs.set m b).Perm (b :: xs.set m a)
  | [], m, _, _, h => absurd h (by simp)
  | y :: ys, 0, a, b, _ => List.Perm.swap b a ys
  | y :: ys, m + 1, a, b, h => by
    show (a :: y :: ys.set m b).Perm (b :: y :: ys.set m a)
    have ih := cons_set_swap_perm ys m a b (by simpa using h)
    exact (List.Perm.swap y a _).trans ((ih.cons y).trans (List.Perm.swap b y _))

theorem set_set_perm {α} : ∀ (l : List α) (i j : Nat) (a d : α), i < l.length → j < l.length →
    i ≠ j → ((l.set i (l.getD j d)).set j a).Perm (l.set i a)
  | [], i, _, _, _, hi, _, _ => absurd hi (by simp)
  | _ :: _, 0, 0, _, _, _, _, hij => absurd rfl hij
  | x :: xs, 0, j + 1, a, d, _, hj, _ => by
    show (xs.getD j d :: xs.set j a).Perm (a :: xs)
    have hj' : j < xs.length := by simpa using hj
    have := cons_set_swap_perm xs j (xs.getD j d) a hj'
    rwa [set_getD_self d xs j hj'] at this
  | x :: xs, i + 1, 0, a, d, hi, _, _ => by
    show (a :: xs.set i x).Perm (x :: xs.set i a)
    exact cons_set_swap_perm xs i a x (by simpa using hi)
  | x :: xs, i + 1, j + 1, a, d, hi, hj, hij => by
    show (x :: (xs.set i (xs.getD j d)).set j a).Perm (x :: xs.set i a)
    exact (set_set_perm xs i j a d (by simpa using hi) (by simpa using hj)
      (fun h => hij (by rw [h]))).cons x

theorem set_append_last {α} : ∀ (l : List α) (a b : α), (l ++ [a]).set l.length b = l ++ [b]
  | [], _, _ => rfl
  | x :: xs, a, b => by
    show x :: (xs ++ [a]).set xs.length b = x :: (xs ++ [b])
    rw [set_append_last xs a b]

/-! Permutation facts for the `heapq` model: every sift operation, and hence
`heappush` and `heapify`, only rearranges the entries of the heap array. -/

theorem siftdownAux_perm : ∀ (fuel : Nat) (l : List Entry) (startpos pos : Nat) (newitem : Entry),
    pos < l.length → (siftdownAux l startpos pos newitem fuel).Perm (l.set pos newitem)
  | 0, l, _, pos, newitem, _ => List.Perm.refl _
  | fuel + 1, l, startpos, pos, newitem, h => by
    show (siftdownAux l startpos pos newitem (fuel + 1)).Perm _
    unfold siftdownAux
    split
    · split
      · have hpos : 0 < pos := Nat.lt_of_le_of_lt (Nat.zero_le _) (by assumption)
        have hpp : (pos - 1) / 2 < pos :=
          Nat.lt_of_le_of_lt (Nat.div_le_self _ 2) (Nat.sub_lt hpos Nat.one_pos)
        have hlen : (pos - 1) / 2 < l.length := Nat.lt_trans hpp h
        have ih := siftdownAux_perm fuel (l.set pos (l.getD ((pos - 1) / 2) default))
          startpos ((pos - 1) / 2) newitem (by simpa using hlen)
        exact ih.trans (set_set_perm l pos ((pos - 1) / 2) newitem default h hlen
          (Nat.ne_of_gt hpp))
      · exact List.Perm.refl _
    · exact List.Perm.refl _

theorem siftdown_perm (l : List Entry) (startpos pos : Nat) (newitem : Entry)
    (h : pos < l.length) : (siftdown l startpos pos newitem).Perm (l.set pos newitem) :=
  siftdownAux_perm pos l startpos pos newitem h

theorem pickChild_lt (l : List Entry) (childpos : Nat) (h : childpos < l.length) :
    pickChild l childpos < l.length := by
  unfold pickChild
  split
  · next hc =>
    exact (Bool.and_eq_true _ _ |>.mp hc).1 |> of_decide_eq_true
  · exact h

theorem pickChild_ge (l : List Entry) (childpos : Nat) : childpos ≤ pickChild l childpos := by
  unfold pickChild
  split
  · exact Nat.le_succ _
  · exact Nat.le_refl _

theorem siftupLoop_perm : ∀ (fuel : Nat) (l : List Entry) (pos : Nat) (newitem : Entry)
    (startpos : Nat), pos < l.length →
    (siftupLoop l pos newitem startpos fuel).Perm (l.set pos newitem)
  | 0, l, pos, newitem, startpos, h => by
    show (siftdown (l.set pos newitem) startpos pos newitem).Perm _
    have := siftdown_perm (l.set pos newitem) startpos pos newitem (by simpa using h)
    rwa [List.set_set] at this
  | fuel + 1, l, pos, newitem, startpos, h => by
    show (siftupLoop l pos newitem startpos (fuel + 1)).Perm _
    unfold siftupLoop
    split
    · next hchild =>
      have hcp : pickChild l (2 * pos + 1) < l.length := pickChild_lt l _ hchild
      have hne : pos ≠ pickChild l (2 * pos + 1) := by
        have h1 : pos < 2 * pos + 1 := by omega
        exact Nat.ne_of_lt (Nat.lt_of_lt_of_le h1 (pickChild_ge l _))
      have ih := siftupLoop_perm fuel (l.set pos (l.getD (pickChild l (2 * pos + 1)) default))
        (pickChild l (2 * pos + 1)) newitem startpos (by simpa using hcp)
      exact ih.trans (set_set_perm l pos (pickChild l (2 * pos + 1)) newitem default h hcp hne)
    · have := siftdown_perm (l.set pos newitem) startpos pos newitem (by simpa using h)
      rwa [List.set_set] at this

theorem siftup_perm (l : List Entry) (pos : Nat) (h : pos < l.length) :
    (siftup l pos).Perm l := by
  have := siftupLoop_perm l.length l pos (l.getD pos default) pos h
  rwa [set_getD_self default l pos h] at this

theorem heapifyLoop_perm : ∀ (i : Nat) (l : List Entry), i < l.length →
    (heapifyLoop l i).Perm l
  | 0, l, h => siftup_perm l 0 h
  | i + 1, l, h => by
    show (heapifyLoop (siftup l (i + 1)) i).Perm l
    have h1 := siftup_perm l (i + 1) h
    have h2 : i < (siftup l (i + 1)).length := by
      rw [h1.length_eq]; omega
    exact (heapifyLoop_perm i (siftup l (i + 1)) h2).trans h1

theorem heapify_perm (l : List Entry) : (heapify l).Perm l := by
  unfold heapify
  split
  · exact List.Perm.refl _
  · next h =>
    have hpos : 0 < l.length := by
      rcases Nat.eq_zero_or_pos l.length with h0 | h0
      · exact absurd (by simp [h0]) h
      · exact h0
    have h2 : l.length / 2 < l.length := Nat.div_lt_self hpos (by omega)
    exact heapifyLoop_perm _ l (by omega)

theorem heappush_perm (l : List Entry) (item : Entry) : (heappush l item).Perm (item :: l) := by
  have h : l.length < (l ++ [item]).length := by simp
  have := siftdown_perm (l ++ [item]) 0 l.length item h
  rw [set_append_last] at this
  exact this.trans (List.perm_append_singleton item l)

/-! Characterisation of the dependency index updates. -/

theorem dict_get_add_dependent (name : String) : ∀ (td : List (String × List String)) (dep d : String),
    dict_get (add_dependent name td dep) d =
      if d = dep then dict_get td dep ++ [name] else dict_get td d
  | [], dep, d => by
    by_cases h : d = dep
    · simp [add_dependent, dict_get, h]
    · have h' : ¬ dep = d := fun hh => h hh.symm
      simp [add_dependent, dict_get, h, h']
  | kv :: rest, dep, d => by
    by_cases h1 : kv.1 = dep
    · by_cases h2 : d = dep
      · subst h2
        simp [add_dependent, dict_get, h1]
      · have h3 : kv.1 ≠ d := fun h => h2 (h ▸ h1)
        have h4 : ¬ dep = d := fun hh => h2 hh.symm
        simp [add_dependent, dict_get, h1, h2, h3, h4]
    · by_cases h3 : kv.1 = d
      · have h2 : d ≠ dep := fun h => h1 (h3.trans h)
        simp [add_dependent, dict_get, h1, h2, h3]
      · simp [add_dependent, dict_get, h1, h3, dict_get_add_dependent name rest dep d]

theorem dict_get_foldl (name : String) : ∀ (deps : List String)
    (td : List (String × List String)) (d : String),
    dict_get (deps.foldl (fun td dep => add_dependent name td dep) td) d =
      dict_get td d ++ List.replicate (deps.count d) name
  | [], td, d => by simp
  | dep :: rest, td, d => by
    show dict_get (rest.foldl (fun td dep => add_dependent name td dep) (add_dependent name td dep)) d = _
    rw [dict_get_foldl name rest (add_dependent name td dep) d,
      dict_get_add_dependent name td dep d]
    by_cases h : d = dep
    · subst h
      simp [List.count_cons, List.replicate_succ, List.append_assoc]
    · simp [List.count_cons, h]

/-! The stable sort model: sorted output, a permutation of the input, and
stability (elements of any fixed priority keep their relative order). -/

theorem insertByPriority_perm (e : Entry) : ∀ (l : List Entry),
    (insertByPriority e l).Perm (e :: l)
  | [] => List.Perm.refl _
  | f :: rest => by
    unfold insertByPriority
    split
    · exact List.Perm.refl _
    · exact ((insertByPriority_perm e rest).cons f).trans (List.Perm.swap e f rest)

theorem sortByPriority_perm : ∀ (l : List Entry), (sortByPriority l).Perm l
  | [] => List.Perm.refl _
  | e :: rest =>
    (insertByPriority_perm e (sortByPriority rest)).trans ((sortByPriority_perm rest).cons e)

theorem insertByPriority_pairwise (e : Entry) : ∀ (l : List Entry),
    List.Pairwise (fun a b : Entry => a.priority ≤ b.priority) l →
    List.Pairwise (fun a b : Entry => a.priority ≤ b.priority) (insertByPriority e l)
  | [], _ => by simp [insertByPriority]
  | f :: rest, h => by
    unfold insertByPriority
    rcases List.pairwise_cons.mp h with ⟨hf, hrest⟩
    split
    · next hef =>
      refine List.pairwise_cons.mpr ⟨?_, h⟩
      intro x hx
      rcases List.mem_cons.mp hx with rfl | hx
      · exact hef
      · exact le_trans hef (hf x hx)
    · next hef =>
      refine List.pairwise_cons.mpr ⟨?_, insertByPriority_pairwise e rest hrest⟩
      intro x hx
      have hx' : x ∈ e :: rest := (insertByPriority_perm e rest).mem_iff.mp hx
      rcases List.mem_cons.mp hx' with rfl | hx'
      · exact le_of_not_le hef
      · exact hf x hx'

theorem sortByPriority_pairwise : ∀ (l : List Entry),
    List.Pairwise (fun a b : Entry => a.priority ≤ b.priority) (sortByPriority l)
  | [] => List.Pairwise.nil
  | e :: rest => insertByPriority_pairwise e (sortByPriority rest) (sortByPriority_pairwise rest)

theorem insertByPriority_filter (e : Entry) (p : Int) : ∀ (l : List Entry),
    (insertByPriority e l).filter (fun x => x.priority == p) =
      if e.priority == p then e :: l.filter (fun x => x.priority == p)
      else l.filter (fun x => x.priority == p)
  | [] => by
    by_cases h : e.priority = p <;> simp [insertByPriority, List.filter_cons, h]
  | f :: rest => by
    unfold insertByPriority
    split
    · by_cases h : e.priority = p <;> simp [List.filter_cons, h]
    · next hef =>
      have hfe : f.priority < e.priority := lt_of_not_le hef
      by_cases h : e.priority = p
      · have hf : ¬ f.priority = p := by
          intro hc
          rw [hc, h] at hfe
          exact lt_irrefl p hfe
        simp [List.filter_cons, insertByPriority_filter e p rest, h, hf]
      · simp [List.filter_cons, insertByPriority_filter e p rest, h]

theorem sortByPriority_filter (p : Int) : ∀ (l : List Entry),
    (sortByPriority l).filter (fun x => x.priority == p) =
      l.filter (fun x => x.priority == p)
  | [] => rfl
  | e :: rest => by
    show (insertByPriority e (sortByPriority rest)).filter _ = _
    rw [insertByPriority_filter e p (sortByPriority rest), sortByPriority_filter p rest]
    by_cases h : e.priority = p <;> simp [List.filter_cons, h]

/-! Characterisation of the linear scan in `complete_task`. -/

theorem findEntry_eq : ∀ (l : List Entry) (tname : String) (pre : List Entry) (e : Entry)
    (post : List Entry), findEntry l tname = some (pre, e, post) →
    l = pre ++ e :: post ∧ e.task.name = tname := by
  intro l
  induction l with
  | nil => intro tname pre e post h; simp [findEntry] at h
  | cons x rest ih =>
    intro tname pre e post h
    rw [findEntry] at h
    split at h
    · next hx =>
      simp only [Option.some.injEq, Prod.mk.injEq] at h
      obtain ⟨h1, h2, h3⟩ := h
      subst h1; subst h2; subst h3
      exact ⟨rfl, hx⟩
    · next hx =>
      cases hrec : findEntry rest tname with
      | none => rw [hrec] at h; simp at h
      | some val =>
        obtain ⟨pre', f, post'⟩ := val
        rw [hrec] at h
        simp only [Option.some.injEq, Prod.mk.injEq] at h
        obtain ⟨h1, h2, h3⟩ := h
        subst h1; subst h2; subst h3
        obtain ⟨hl, hn⟩ := ih tname pre' f post' hrec
        exact ⟨by rw [hl]; rfl, hn⟩

/-! Unfolding lemmas for `add_task` and `load_tasks`. -/

theorem add_task_success (s : State) (name priority : String) (deps : List String)
    (dl : Option String) (n : Int) (hname : ¬ pyStrip name.data = [])
    (hp : pyInt priority = some n)
    (hdeps : deps.filter (fun dep => !((s.tasks.map (fun e => e.task.name)).contains dep) &&
      !(s.completed_tasks.contains dep)) = []) :
    add_task s name priority deps dl =
      (.ok ⟨name, n, deps, dl⟩,
       { tasks := heappush s.tasks ⟨n, s.counter + 1, ⟨name, n, deps, dl⟩⟩,
         completed_tasks := s.completed_tasks,
         task_dependencies :=
           deps.foldl (fun td dep => add_dependent name td dep) s.task_dependencies,
         counter := s.counter + 1 }) := by
  unfold add_task
  rw [if_neg hname]
  simp only [hp]
  rw [if_neg (fun h => h hdeps)]

theorem load_entries_map_task : ∀ (i : Nat) (l : List Task),
    (load_entries i l).map (fun e => e.task) = l
  | _, [] => rfl
  | i, t :: rest => by
    show t :: (load_entries (i + 1) rest).map (fun e => e.task) = t :: rest
    rw [load_entries_map_task (i + 1) rest]

theorem load_entries_map_seq : ∀ (i : Nat) (l : List Task),
    (load_entries i l).map (fun e => e.seq) = List.range' i l.length
  | _, [] => by simp [load_entries]
  | i, t :: rest => by
    show i :: (load_entries (i + 1) rest).map (fun e => e.seq) = List.range' i (rest.length + 1)
    rw [load_entries_map_seq (i + 1) rest, List.range'_succ]

/-- Shared helper: when the name is non-blank, the priority parses, and some
dependency is neither a pending task name nor completed, `add_task` returns
the `UnknownDependency` error with the filtered offending list and the
unchanged state; and every offending name is in that list. -/
theorem add_task_unknown_dep (s : State) (name priority : String) (deps : List String)
    (dl : Option String) (n : Int) (hname : ¬ pyStrip name.data = [])
    (hp : pyInt priority = some n)
    (hex : ∃ d ∈ deps, ¬ d ∈ pending_names s ∧ ¬ d ∈ s.completed_tasks) :
    add_task s name priority deps dl =
      (.unknownDependency (deps.filter (fun dep =>
        !((s.tasks.map (fun e => e.task.name)).contains dep) &&
        !(s.completed_tasks.contains dep))), s) ∧
    ∀ d ∈ deps, ¬ d ∈ pending_names s → ¬ d ∈ s.completed_tasks →
      d ∈ deps.filter (fun dep => !((s.tasks.map (fun e => e.task.name)).contains dep) &&
        !(s.completed_tasks.contains dep)) := by
  have hmem : ∀ d ∈ deps, ¬ d ∈ pending_names s → ¬ d ∈ s.completed_tasks →
      d ∈ deps.filter (fun dep => !((s.tasks.map (fun e => e.task.name)).contains dep) &&
        !(s.completed_tasks.contains dep)) := by
    intro d hd h1 h2
    refine List.mem_filter.mpr ⟨hd, ?_⟩
    simp only [Bool.and_eq_true, Bool.not_eq_true']
    constructor
    · exact by simpa [pending_names] using h1
    · exact by simpa using h2
  refine ⟨?_, hmem⟩
  obtain ⟨d, hd, h1, h2⟩ := hex
  have hne : deps.filter (fun dep => !((s.tasks.map (fun e => e.task.name)).contains dep) &&
      !(s.completed_tasks.contains dep)) ≠ [] :=
    List.ne_nil_of_mem (hmem d hd h1 h2)
  unfold add_task
  rw [if_neg hname]
  simp only [hp]
  rw [if_pos hne]

/-! Claim theorems. -/

/-- C5: for every task and completed set, the executability evaluator returns
`(true, [])` when the task's dependencies are empty; otherwise its second
component is the list of dependencies not in the completed set in the task's
original dependency order, and the first component is true exactly when that
list is empty.  The function is pure: it takes the state it reads as an
argument and returns a value without mutating anything. -/
theorem c5_executability (t : Task) (completed : List String) :
    (t.dependencies = [] → is_task_executable t completed = (true, [])) ∧
    (is_task_executable t completed).2 =
      t.dependencies.filter (fun dep => !(completed.contains dep)) ∧
    ((is_task_executable t completed).1 = true ↔ (is_task_executable t completed).2 = []) := by
  refine ⟨fun h => by simp [is_task_executable, h], ?_, ?_⟩
  · by_cases h : t.dependencies = [] <;> simp [is_task_executable, h]
  · by_cases h : t.dependencies = []
    · simp [is_task_executable, h]
    · simp only [is_task_executable, if_neg h]
      simp [List.length_eq_zero]

/-- Witness for C5 at a concrete dependency-free task. -/
theorem c5_witness : is_task_executable ⟨"W", 1, [], none⟩ [] = (true, []) :=
  (c5_executability ⟨"W", 1, [], none⟩ []).1 rfl

/-- C8: `add_task` rejects an empty or whitespace-only name with
`InvalidName`, and (for a valid name) a priority string that does not parse
as an integer with `InvalidPriority`; in both cases the state is returned
unchanged, so nothing is stored. -/
theorem c8_validation (s : State) (name priority : String) (deps : List String)
    (dl : Option String) :
    (pyStrip name.data = [] → add_task s name priority deps dl = (.invalidName, s)) ∧
    (¬ pyStrip name.data = [] → pyInt priority = none →
      add_task s name priority deps dl = (.invalidPriority, s)) := by
  constructor
  · intro h
    unfold add_task
    rw [if_pos h]
  · intro h hp
    unfold add_task
    rw [if_neg h]
    simp only [hp]

/-- Witness for C8: a whitespace-only name and the non-integer priority
string `3.5` are both rejected without touching the state. -/
theorem c8_witness :
    (pyStrip "  ".data = [] ∧ add_task stateA "  " "1" [] none = (.invalidName, stateA)) ∧
    (¬ pyStrip "x".data = [] ∧ pyInt "3.5" = none ∧
      add_task stateA "x" "3.5" [] none = (.invalidPriority, stateA)) :=
  ⟨⟨by decide, (c8_validation stateA "  " "1" [] none).1 (by decide)⟩,
   ⟨by decide, by decide, (c8_validation stateA "x" "3.5" [] none).2 (by decide) (by decide)⟩⟩

/-- C9: saving and reloading reproduces the pending task records (names,
priorities, dependencies, deadlines) in stored order, the same completed
set, and the same dependency-index edges; the reconstructed sequence numbers
are `0, 1, 2, ...` in stored order. -/
theorem c9_roundtrip (s : State) :
    (load_tasks (save_tasks s)).tasks.map (fun e => e.task) = s.tasks.map (fun e => e.task) ∧
    (∀ x, x ∈ (load_tasks (save_tasks s)).completed_tasks ↔ x ∈ s.completed_tasks) ∧
    (load_tasks (save_tasks s)).task_dependencies = s.task_dependencies ∧
    (load_tasks (save_tasks s)).tasks.map (fun e => e.seq) = List.range s.tasks.length := by
  refine ⟨?_, fun x => Iff.rfl, rfl, ?_⟩
  · show (load_entries 0 (s.tasks.map fun e => e.task)).map (fun e => e.task) = _
    rw [load_entries_map_task]
  · show (load_entries 0 (s.tasks.map fun e => e.task)).map (fun e => e.seq) = _
    rw [load_entries_map_seq, List.range_eq_range']
    simp

/-- C3 counterexample: for the spec's own example (priorities 5, 1, 5, 3
added in that insertion order) the ordered listing produced by the code is
task2, task4, task3, task1 — the two priority-5 tasks come out in heap-array
order, not insertion order — and not the claimed task2, task4, task1, task3. -/
theorem c3_counterexample :
    (list_pending_ordered c3_state).map Task.name = ["task2", "task4", "task3", "task1"] ∧
    ¬ (list_pending_ordered c3_state).map Task.name = ["task2", "task4", "task1", "task3"] :=
  ⟨by decide, by decide⟩

/-- C3 amended: the ordered listing sorts the heap array stably by priority
alone: the output is a permutation of the pending entries, is nondecreasing
in priority, and entries of any fixed priority keep the relative order they
had in the heap's internal array — which after heap pushes need not be
insertion order; on the [5,1,5,3] example the listing is task2, task4,
task3, task1. -/
theorem c3_amended :
    (∀ s : State,
      (sortByPriority s.tasks).Perm s.tasks ∧
      List.Pairwise (fun a b : Entry => a.priority ≤ b.priority) (sortByPriority s.tasks) ∧
      (∀ p : Int, (sortByPriority s.tasks).filter (fun x => x.priority == p) =
        s.tasks.filter (fun x => x.priority == p))) ∧
    (list_pending_ordered c3_state).map Task.name = ["task2", "task4", "task3", "task1"] :=
  ⟨fun s => ⟨sortByPriority_perm s.tasks, sortByPriority_pairwise s.tasks,
    fun p => sortByPriority_filter p s.tasks⟩, by decide⟩

/-- C4 counterexample: adding task `T` whose dependency list names `D` twice
records `T` twice in the dependents of `D`, so the dependents collection is
not duplicate-free. -/
theorem c4_counterexample :
    dependents_of c4_state "D" = ["T", "T"] ∧ (dependents_of c4_state "D").count "T" = 2 :=
  ⟨by decide, by decide⟩

/-- C4 amended: recording edges is not idempotent per (dep, name) pair: a
successful add appends the new task's name to the dependents of `d` once per
occurrence of `d` in its dependency list, and leaves other dependents lists
unchanged; in particular two different tasks depending on the same `D` both
appear, but a repeated occurrence produces a duplicate entry. -/
theorem c4_amended (s : State) (name priority : String) (deps : List String)
    (dl : Option String) (n : Int) (hname : ¬ pyStrip name.data = [])
    (hp : pyInt priority = some n)
    (hdeps : deps.filter (fun dep => !((s.tasks.map (fun e => e.task.name)).contains dep) &&
      !(s.completed_tasks.contains dep)) = []) :
    ∀ d, dependents_of (add_task s name priority deps dl).2 d =
      dependents_of s d ++ List.replicate (deps.count d) name := by
  intro d
  rw [add_task_success s name priority deps dl n hname hp hdeps]
  show dict_get (deps.foldl (fun td dep => add_dependent name td dep) s.task_dependencies) d = _
  rw [dict_get_foldl]
  rfl

/-- Witness for C4 amended: adding `B` depending on `A` appends one entry to
the dependents of `A`. -/
theorem c4_witness :
    dependents_of (add_task stateA "B" "1" ["A"] none).2 "A" =
      dependents_of stateA "A" ++ List.replicate ((["A"] : List String).count "A") "B" :=
  c4_amended stateA "B" "1" ["A"] none 1 (by decide) (by decide) (by decide) "A"

/-- C2 counterexample: with `A` already pending, `add_task` accepts a second
task also named `A`: it returns the new task and the state now holds two
pending tasks with the same name, so name collisions are not rejected. -/
theorem c2_counterexample :
    "A" ∈ pending_names stateA ∧
    (add_task stateA "A" "2" [] none).1 = .ok ⟨"A", 2, [], none⟩ ∧
    pending_names (add_task stateA "A" "2" [] none).2 = ["A", "A"] ∧
    ¬ (add_task stateA "A" "2" [] none).2 = stateA :=
  ⟨by decide, by decide, by decide, by decide⟩

/-- C2 amended: `add_task` performs no name-collision check at all: whenever
the name is non-blank, the priority parses and every dependency already
exists, the add succeeds even though the name is already pending or
completed, and the pending names afterwards are the old ones plus one more
occurrence of the name. -/
theorem c2_amended (s : State) (name priority : String) (deps : List String)
    (dl : Option String) (n : Int)
    (hcollide : name ∈ pending_names s ∨ name ∈ s.completed_tasks)
    (hname : ¬ pyStrip name.data = []) (hp : pyInt priority = some n)
    (hdeps : deps.filter (fun dep => !((s.tasks.map (fun e => e.task.name)).contains dep) &&
      !(s.completed_tasks.contains dep)) = []) :
    (add_task s name priority deps dl).1 = .ok ⟨name, n, deps, dl⟩ ∧
    (pending_names (add_task s name priority deps dl).2).Perm (name :: pending_names s) := by
  rw [add_task_success s name priority deps dl n hname hp hdeps]
  refine ⟨rfl, ?_⟩
  show ((heappush s.tasks ⟨n, s.counter + 1, ⟨name, n, deps, dl⟩⟩).map
    (fun e => e.task.name)).Perm _
  have := (heappush_perm s.tasks ⟨n, s.counter + 1, ⟨name, n, deps, dl⟩⟩).map
    (fun e => e.task.name)
  simpa [pending_names] using this

/-- Witness for C2 amended: re-adding the pending name `A` succeeds. -/
theorem c2_witness :
    ("A" ∈ pending_names stateA ∨ "A" ∈ stateA.completed_tasks) ∧
    (add_task stateA "A" "2" [] none).1 = .ok ⟨"A", 2, [], none⟩ ∧
    (pending_names (add_task stateA "A" "2" [] none).2).Perm ("A" :: pending_names stateA) :=
  ⟨Or.inl (by decide),
   c2_amended stateA "A" "2" [] none 2 (Or.inl (by decide)) (by decide) (by decide) (by decide)⟩

/-- C6: when the name is non-blank and the priority parses, an add whose
dependency list contains at least one name that is neither pending nor
completed fails with `UnknownDependency` carrying the filtered list of
offending entries — which contains every offending name — and returns the
state unchanged: no task is stored, no sequence is consumed, no edge is
recorded. -/
theorem c6_unknown_dependency (s : State) (name priority : String) (deps : List String)
    (dl : Option String) (n : Int) (hname : ¬ pyStrip name.data = [])
    (hp : pyInt priority = some n)
    (hex : ∃ d ∈ deps, ¬ d ∈ pending_names s ∧ ¬ d ∈ s.completed_tasks) :
    add_task s name priority deps dl =
      (.unknownDependency (deps.filter (fun dep =>
        !((s.tasks.map (fun e => e.task.name)).contains dep) &&
        !(s.completed_tasks.contains dep))), s) ∧
    ∀ d ∈ deps, ¬ d ∈ pending_names s → ¬ d ∈ s.completed_tasks →
      d ∈ deps.filter (fun dep => !((s.tasks.map (fun e => e.task.name)).contains dep) &&
        !(s.completed_tasks.contains dep)) :=
  add_task_unknown_dep s name priority deps dl n hname hp hex

/-- Witness for C6: adding `T` depending on the unknown name `X` fails with
`UnknownDependency ["X"]` and leaves the state unchanged. -/
theorem c6_witness :
    add_task stateA "T" "1" ["X"] none =
      (.unknownDependency ((["X"] : List String).filter (fun dep =>
        !((stateA.tasks.map (fun e => e.task.name)).contains dep) &&
        !(stateA.completed_tasks.contains dep))), stateA) :=
  (c6_unknown_dependency stateA "T" "1" ["X"] none 1 (by decide) (by decide)
    ⟨"X", by decide, by decide, by decide⟩).1

/-- C10: under a fresh name `N` (neither pending nor completed), an add whose
dependency list contains `N` itself fails with `UnknownDependency` carrying
`N`, and the state is unchanged: a task can never be created depending on
itself under a fresh name, because dependency existence is checked before
the task is inserted. -/
theorem c10_self_dependency (s : State) (name priority : String) (deps : List String)
    (dl : Option String) (n : Int) (hname : ¬ pyStrip name.data = [])
    (hp : pyInt priority = some n) (hpend : ¬ name ∈ pending_names s)
    (hcomp : ¬ name ∈ s.completed_tasks) (hdep : name ∈ deps) :
    ∃ offenders, add_task s name priority deps dl = (.unknownDependency offenders, s) ∧
      name ∈ offenders := by
  obtain ⟨heq, hmem⟩ := add_task_unknown_dep s name priority deps dl n hname hp
    ⟨name, hdep, hpend, hcomp⟩
  exact ⟨_, heq, hmem name hdep hpend hcomp⟩

/-- Witness for C10: adding a fresh `S` that depends on itself fails with an
`UnknownDependency` error naming `S`. -/
theorem c10_witness :
    ∃ offenders, add_task stateA "S" "1" ["S"] none = (.unknownDependency offenders, stateA) ∧
      "S" ∈ offenders :=
  c10_self_dependency stateA "S" "1" ["S"] none 1 (by decide) (by decide) (by decide)
    (by decide) (by decide)

/-- C7 counterexample: in a concrete run, `B` is created with sequence 2;
after completing `B`, saving, reloading and adding `C`, the reloaded counter
is the number of loaded pending tasks (1), so `C` is also assigned sequence
2 — and the surviving task `A` has been renumbered from 1 to 0.  Sequence
values are reused across a persistence reload. -/
theorem c7_counterexample :
    ("B", 2) ∈ c7_before.tasks.map (fun e => (e.task.name, e.seq)) ∧
    c7_after.tasks.map (fun e => (e.task.name, e.seq)) = [("A", 0), ("C", 2)] :=
  ⟨by decide, by decide⟩

/-- C7 amended: within a single lifetime (no reload) sequence numbers are
strictly increasing and never reused: assuming every current entry's
sequence is at most the counter (an invariant every reachable in-lifetime
state satisfies), a successful add bumps the counter by one, assigns the new
task the new counter value, keeps the invariant, and the new sequence is
strictly larger than every previously assigned one.  Across a reload the
counter is reset to the number of loaded tasks, so reuse is possible. -/
theorem c7_amended (s : State) (name priority : String) (deps : List String)
    (dl : Option String) (n : Int) (hname : ¬ pyStrip name.data = [])
    (hp : pyInt priority = some n)
    (hdeps : deps.filter (fun dep => !((s.tasks.map (fun e => e.task.name)).contains dep) &&
      !(s.completed_tasks.contains dep)) = [])
    (hinv : ∀ e ∈ s.tasks, e.seq ≤ s.counter) :
    (add_task s name priority deps dl).2.counter = s.counter + 1 ∧
    (∃ e ∈ (add_task s name priority deps dl).2.tasks,
      e.task = ⟨name, n, deps, dl⟩ ∧ e.seq = s.counter + 1) ∧
    (∀ e ∈ (add_task s name priority deps dl).2.tasks, e.seq ≤ s.counter + 1) ∧
    (∀ e ∈ s.tasks, e.seq < s.counter + 1) := by
  rw [add_task_success s name priority deps dl n hname hp hdeps]
  have hperm := heappush_perm s.tasks ⟨n, s.counter + 1, ⟨name, n, deps, dl⟩⟩
  refine ⟨rfl, ?_, ?_, ?_⟩
  · exact ⟨⟨n, s.counter + 1, ⟨name, n, deps, dl⟩⟩,
      hperm.mem_iff.mpr (List.mem_cons_self _ _), rfl, rfl⟩
  · intro e he
    rcases List.mem_cons.mp (hperm.mem_iff.mp he) with rfl | hmem
    · exact Nat.le_refl _
    · exact Nat.le_succ_of_le (hinv e hmem)
  · intro e he
    exact Nat.lt_succ_of_le (hinv e he)

/-- Witness for C7 amended: the first add in a fresh lifetime bumps the
counter to 1 and assigns sequence 1. -/
theorem c7_witness :
    (add_task emptyState "A" "1" [] none).2.counter = emptyState.counter + 1 ∧
    (∃ e ∈ (add_task emptyState "A" "1" [] none).2.tasks,
      e.task = ⟨"A", 1, [], none⟩ ∧ e.seq = emptyState.counter + 1) :=
  ⟨(c7_amended emptyState "A" "1" [] none 1 (by decide) (by decide) (by decide)
      (by decide)).1,
   (c7_amended emptyState "A" "1" [] none 1 (by decide) (by decide) (by decide)
      (by decide)).2.1⟩

/-- C1: for a pending task `A` (given as the first matching heap entry) whose
own dependencies are all completed, `complete_task` fails with
`BlockedByDependents` listing exactly the recorded dependents of `A` not yet
in the completed set, leaving pending, completed and the dependency index
unchanged, whenever that list is non-empty; and once every recorded
dependent of `A` is completed, it succeeds, removing the entry from pending
(the heap is rebuilt as a permutation of the remaining entries) and adding
`A` to the completed set, with the dependency index untouched. -/
theorem c1_complete_gating (s : State) (A : String) (pre : List Entry) (e : Entry)
    (post : List Entry) (hfind : findEntry s.tasks A = some (pre, e, post))
    (hdeps : ∀ d ∈ e.task.dependencies, d ∈ s.completed_tasks) :
    s.tasks = pre ++ e :: post ∧ e.task.name = A ∧
    ((dependents_of s A).filter (fun dep => !(s.completed_tasks.contains dep)) ≠ [] →
      complete_task s A =
        (.blockedByDependents
          ((dependents_of s A).filter (fun dep => !(s.completed_tasks.contains dep))), s)) ∧
    ((dependents_of s A).filter (fun dep => !(s.completed_tasks.contains dep)) = [] →
      (complete_task s A).1 = .ok ∧
      ((complete_task s A).2.tasks).Perm (pre ++ post) ∧
      (complete_task s A).2.completed_tasks = set_add s.completed_tasks A ∧
      (complete_task s A).2.task_dependencies = s.task_dependencies) := by
  obtain ⟨hl, hn⟩ := findEntry_eq s.tasks A pre e post hfind
  have hpd : (is_task_executable e.task s.completed_tasks).2 = [] := by
    by_cases h : e.task.dependencies = []
    · simp [is_task_executable, h]
    · simp only [is_task_executable, if_neg h]
      rw [List.filter_eq_nil_iff]
      intro d hd
      simp [hdeps d hd]
  refine ⟨hl, hn, ?_, ?_⟩
  · intro hb
    have hb' : (dict_get s.task_dependencies A).filter
        (fun dep => !(s.completed_tasks.contains dep)) ≠ [] := hb
    simp only [complete_task, hfind]
    rw [if_neg (fun hne => hne hpd), if_pos hb']
    rfl
  · intro hb
    have hb' : (dict_get s.task_dependencies A).filter
        (fun dep => !(s.completed_tasks.contains dep)) = [] := hb
    have hstep : complete_task s A =
        (.ok, { tasks := heapify (pre ++ post),
                completed_tasks := set_add s.completed_tasks A,
                task_dependencies := s.task_dependencies,
                counter := s.counter }) := by
      simp only [complete_task, hfind]
      rw [if_neg (fun hne => hne hpd), if_neg (fun hne => hne hb')]
    rw [hstep]
    exact ⟨rfl, heapify_perm (pre ++ post), rfl, rfl⟩

/-- Witness for C1: with `B` pending and depending on `A`, completing `A` is
refused with `BlockedByDependents ["B"]` and the state is unchanged; with
`A` alone (no dependents), completing `A` succeeds. -/
theorem c1_witness :
    complete_task stateAB "A" =
      (.blockedByDependents ((dependents_of stateAB "A").filter
        (fun dep => !(stateAB.completed_tasks.contains dep))), stateAB) ∧
    (complete_task stateA "A").1 = .ok := by
  constructor
  · exact (c1_complete_gating stateAB "A" [] ⟨1, 1, ⟨"A", 1, [], none⟩⟩
      [⟨1, 2, ⟨"B", 1, ["A"], none⟩⟩] (by decide) (by decide)).2.2.1 (by decide)
  · exact ((c1_complete_gating stateA "A" [] ⟨1, 1, ⟨"A", 1, [], none⟩⟩ []
      (by decide) (by decide)).2.2.2 (by decide)).1

end GestorTareas
